import Mathlib

/-!
Verification of the video-editor timeline and export pipeline.

The development shallowly embeds the TypeScript sources:
  - the zustand store (videoStore.ts): clips, timeline blocks, playback state
    and the actions acting on them;
  - the trim operations (TimelineBlock trim-handle drag, App keyboard
    in/out-point handlers);
  - the preview player boundary detection (VideoPlayer handleTimeUpdate);
  - the export pipeline (ExportPanel handleExport / processAndMergeSegments /
    handleCancel), modelled at block granularity: per block the capture loop
    runs until its stop condition holds, then emits a progress sample and
    advances;
  - the transcode progress bridge (ffmpegHelper transcodeVideo progress
    handler).

Seconds and progress percentages are modelled as rationals; DOM resources
(files, video elements, canvases, object URLs) are not representable and the
model instead records the observable effects the specification talks about:
which blocks contributed capture, how often the media-element audio source
was created, which progress samples were emitted, whether the recorder was
started, and the terminal outcome of the run.
-/

/-- Audio settings of a clip (types.ts AudioSettings): volume is the 0-100
percentage, muted the flag. -/
structure AudioSettings where
  volume : ℚ
  muted : Bool
deriving DecidableEq, Repr

/-- Clip metadata (types.ts VideoMetadata). Only the duration participates in
any claim; width/height/codec/frameRate are dropped from the model. -/
structure VideoMetadata where
  duration : ℚ
deriving DecidableEq, Repr

/-- A source clip (types.ts VideoClip). The File object and thumbnail URL are
not representable; the remaining fields are kept. -/
structure VideoClip where
  id : String
  metadata : VideoMetadata
  startTime : ℚ
  endTime : ℚ
  audioSettings : AudioSettings
deriving DecidableEq, Repr

/-- A timeline block (types.ts TimelineBlock). -/
structure TimelineBlock where
  id : String
  clipId : String
  order : ℤ
  startTime : ℚ
  endTime : ℚ
  duration : ℚ
deriving DecidableEq, Repr

/-- Playback state (types.ts PlaybackState). -/
structure PlaybackState where
  isPlaying : Bool
  currentTime : ℚ
  totalDuration : ℚ
  activeBlockId : Option String
deriving DecidableEq, Repr

/-- The store state slice acted on by the claims (videoStore.ts): clips,
timeline blocks and playback (the processing queue is untouched by every
action the claims mention and is dropped). -/
structure VideoStoreState where
  clips : List VideoClip
  timelineBlocks : List TimelineBlock
  playback : PlaybackState
deriving DecidableEq, Repr

/-- blocks.reduce((sum, b) => sum + b.duration, 0), the expression videoStore
uses to recompute playback.totalDuration. -/
def sumDurations (blocks : List TimelineBlock) : ℚ :=
  blocks.foldl (fun sum b => sum + b.duration) 0

/-- videoStore removeClip: drops the clip with the given id and every
timeline block referencing it; nothing else in the state is touched. -/
def removeClip (clipId : String) (s : VideoStoreState) : VideoStoreState :=
  { s with
    clips := s.clips.filter (fun c => !(c.id == clipId)),
    timelineBlocks := s.timelineBlocks.filter (fun b => !(b.clipId == clipId)) }

/-- videoStore addBlockToTimeline: appends the block and recomputes
playback.totalDuration from the new block list. -/
def addBlockToTimeline (block : TimelineBlock) (s : VideoStoreState) : VideoStoreState :=
  let newBlocks := s.timelineBlocks ++ [block]
  { s with
    timelineBlocks := newBlocks,
    playback := { s.playback with totalDuration := sumDurations newBlocks } }

/-- videoStore removeBlockFromTimeline: filters the block out and recomputes
playback.totalDuration from the new block list. -/
def removeBlockFromTimeline (blockId : String) (s : VideoStoreState) : VideoStoreState :=
  let newBlocks := s.timelineBlocks.filter (fun b => !(b.id == blockId))
  { s with
    timelineBlocks := newBlocks,
    playback := { s.playback with totalDuration := sumDurations newBlocks } }

/-- videoStore updateBlockOrder: replaces the whole block list and recomputes
playback.totalDuration from it. -/
def updateBlockOrder (blocks : List TimelineBlock) (s : VideoStoreState) : VideoStoreState :=
  { s with
    timelineBlocks := blocks,
    playback := { s.playback with totalDuration := sumDurations blocks } }

/-- Partial TimelineBlock, the update record accepted by videoStore
updateBlock (TypeScript Partial: every field optional). -/
structure BlockUpdates where
  id : Option String
  clipId : Option String
  order : Option ℤ
  startTime : Option ℚ
  endTime : Option ℚ
  duration : Option ℚ
deriving DecidableEq, Repr

/-- An update record with every field absent. -/
def BlockUpdates.empty : BlockUpdates :=
  ⟨none, none, none, none, none, none⟩

/-- Spreading an update record over a block (the TypeScript merge
b, ...updates): present fields replace, absent fields keep the block's. -/
def applyBlockUpdates (b : TimelineBlock) (u : BlockUpdates) : TimelineBlock :=
  { id := u.id.getD b.id,
    clipId := u.clipId.getD b.clipId,
    order := u.order.getD b.order,
    startTime := u.startTime.getD b.startTime,
    endTime := u.endTime.getD b.endTime,
    duration := u.duration.getD b.duration }

/-- videoStore updateBlock: merges the update into the matching block and
recomputes playback.totalDuration from the new block list. -/
def updateBlock (blockId : String) (u : BlockUpdates) (s : VideoStoreState) : VideoStoreState :=
  let newBlocks := s.timelineBlocks.map (fun b =>
    if b.id == blockId then applyBlockUpdates b u else b)
  { s with
    timelineBlocks := newBlocks,
    playback := { s.playback with totalDuration := sumDurations newBlocks } }

/-- C8: after each of addBlockToTimeline, removeBlockFromTimeline,
updateBlockOrder and updateBlock, the stored playback.totalDuration equals
the sum of the duration field over all timeline blocks of the resulting
state. -/
theorem c8_total_duration_invariant (s : VideoStoreState) (block : TimelineBlock)
    (blockId : String) (u : BlockUpdates) (blocks : List TimelineBlock) :
    (addBlockToTimeline block s).playback.totalDuration
      = sumDurations (addBlockToTimeline block s).timelineBlocks ∧
    (removeBlockFromTimeline blockId s).playback.totalDuration
      = sumDurations (removeBlockFromTimeline blockId s).timelineBlocks ∧
    (updateBlockOrder blocks s).playback.totalDuration
      = sumDurations (updateBlockOrder blocks s).timelineBlocks ∧
    (updateBlock blockId u s).playback.totalDuration
      = sumDurations (updateBlock blockId u s).timelineBlocks := by
  refine ⟨rfl, rfl, rfl, rfl⟩

/-- C9: removeClip removes exactly the clip with the given id and exactly the
blocks referencing it (membership characterisation), and leaves the entire
playback state, including totalDuration, untouched. -/
theorem c9_remove_clip_effect (clipId : String) (s : VideoStoreState) :
    (∀ c : VideoClip, c ∈ (removeClip clipId s).clips ↔ (c ∈ s.clips ∧ c.id ≠ clipId)) ∧
    (∀ b : TimelineBlock,
      b ∈ (removeClip clipId s).timelineBlocks ↔ (b ∈ s.timelineBlocks ∧ b.clipId ≠ clipId)) ∧
    (removeClip clipId s).playback = s.playback ∧
    (removeClip clipId s).playback.totalDuration = s.playback.totalDuration := by
  refine ⟨?_, ?_, rfl, rfl⟩
  · intro c
    simp [removeClip, List.mem_filter]
  · intro b
    simp [removeClip, List.mem_filter]

/-- TimelineBlock.tsx trim mousemove, start handle: the candidate start time
is the block start plus the mouse fraction of the current block duration,
clamped into the range from 0 to the temp end minus 0.1 s. During a start
drag the temp end is never modified. -/
def trimStartMouseMove (b : TimelineBlock) (tempEnd mouseFrac : ℚ) : ℚ :=
  let currentDuration := b.endTime - b.startTime
  let newStartTime := b.startTime + mouseFrac * currentDuration
  let maxStart := tempEnd - 1/10
  max 0 (min newStartTime maxStart)

/-- TimelineBlock.tsx trim mousemove, end handle: the candidate end time is
the block start plus the mouse fraction of the current block duration,
clamped into the range from the temp start plus 0.1 s up to the clip
duration. During an end drag the temp start is never modified. -/
def trimEndMouseMove (b : TimelineBlock) (clipDuration tempStart mouseFrac : ℚ) : ℚ :=
  let currentDuration := b.endTime - b.startTime
  let newEndTime := b.startTime + mouseFrac * currentDuration
  let minEnd := tempStart + 1/10
  max minEnd (min newEndTime clipDuration)

/-- TimelineBlock.tsx handleMouseUp: the update record committed through
updateBlock when a trim drag is released. -/
def trimMouseUpUpdates (tempStart tempEnd : ℚ) : BlockUpdates :=
  { BlockUpdates.empty with
    startTime := some tempStart,
    endTime := some tempEnd,
    duration := some (tempEnd - tempStart) }

/-- The block resulting from a completed start-handle drag whose last
mousemove saw the given mouse fraction. -/
def releasedStartDrag (b : TimelineBlock) (mouseFrac : ℚ) : TimelineBlock :=
  let tempStart := trimStartMouseMove b b.endTime mouseFrac
  applyBlockUpdates b (trimMouseUpUpdates tempStart b.endTime)

/-- The block resulting from a completed end-handle drag whose last mousemove
saw the given mouse fraction; clipDuration is clip.metadata.duration. -/
def releasedEndDrag (b : TimelineBlock) (clipDuration mouseFrac : ℚ) : TimelineBlock :=
  let tempEnd := trimEndMouseMove b clipDuration b.startTime mouseFrac
  applyBlockUpdates b (trimMouseUpUpdates b.startTime tempEnd)

/-- App.tsx KeyI handler on the active block: the in-point becomes
playback.currentTime provided the resulting duration exceeds 0.1 s;
otherwise the block is left unchanged. -/
def keyISetInPoint (b : TimelineBlock) (currentTime : ℚ) : TimelineBlock :=
  let newStartTime := currentTime
  let newDuration := b.endTime - newStartTime
  if 1/10 < newDuration then
    applyBlockUpdates b
      { BlockUpdates.empty with startTime := some newStartTime, duration := some newDuration }
  else b

/-- App.tsx KeyO handler on the active block: the out-point becomes
playback.currentTime provided the resulting duration exceeds 0.1 s;
otherwise the block is left unchanged. No comparison against the clip
duration is performed. -/
def keyOSetOutPoint (b : TimelineBlock) (currentTime : ℚ) : TimelineBlock :=
  let newEndTime := currentTime
  let newDuration := newEndTime - b.startTime
  if 1/10 < newDuration then
    applyBlockUpdates b
      { BlockUpdates.empty with endTime := some newEndTime, duration := some newDuration }
  else b

/-- The trim invariant stated by the spec for a block against the duration of
its underlying clip. -/
def trimInvariant (b : TimelineBlock) (sourceDuration : ℚ) : Prop :=
  0 ≤ b.startTime ∧ b.startTime < b.endTime ∧ b.endTime ≤ sourceDuration

instance instDecidableTrimInvariant (b : TimelineBlock) (d : ℚ) :
    Decidable (trimInvariant b d) :=
  inferInstanceAs (Decidable (0 ≤ b.startTime ∧ b.startTime < b.endTime ∧ b.endTime ≤ d))

/-- The visible effect of one VideoPlayer handleTimeUpdate tick. -/
inductive TimeUpdateAction
  | idle
  | boundaryNext
  | boundaryLoop
  | jumpToStart
  | setTime (t : ℚ)
deriving DecidableEq, Repr

/-- sortedBlocks.slice(0, idx).reduce((sum, b) => sum + b.duration, 0). -/
def cumulativeBefore (blocks : List TimelineBlock) (idx : ℕ) : ℚ :=
  (blocks.take idx).foldl (fun sum b => sum + b.duration) 0

/-- VideoPlayer handleTimeUpdate: when not transitioning and a current block
exists, a tick whose video time has reached the block end minus 0.05 s pauses
immediately and advances (to the next block, or looping to block 0 from the
last); a tick before the block start jumps to the start; otherwise the
cumulative playback time is published. -/
def handleTimeUpdate (sortedBlocks : List TimelineBlock) (currentBlockIndex : ℕ)
    (videoTime : ℚ) (isTransitioning : Bool) : TimeUpdateAction :=
  if isTransitioning then .idle
  else
    match sortedBlocks.get? currentBlockIndex with
    | none => .idle
    | some currentBlock =>
      if currentBlock.endTime - 1/20 ≤ videoTime then
        if currentBlockIndex < sortedBlocks.length - 1 then .boundaryNext else .boundaryLoop
      else if videoTime < currentBlock.startTime then .jumpToStart
      else
        .setTime (cumulativeBefore sortedBlocks currentBlockIndex
          + (videoTime - currentBlock.startTime))

/-- ExportPanel captureLoop stop condition for one animation-frame tick:
video.currentTime has reached block.endTime, or the element reports ended.
There is no subtracted tolerance here. -/
def captureLoopShouldStop (blockEndTime currentTime : ℚ) (ended : Bool) : Bool :=
  decide (blockEndTime ≤ currentTime) || ended

/-- allClips.find(c => c.id === clipId). -/
def clipFor (clips : List VideoClip) (clipId : String) : Option VideoClip :=
  clips.find? (fun c => c.id == clipId)

/-- Insertion step of the stable sort by the order field. -/
def insertByOrder (b : TimelineBlock) : List TimelineBlock → List TimelineBlock
  | [] => [b]
  | x :: xs => if b.order < x.order then b :: x :: xs else x :: insertByOrder b xs

/-- [...timelineBlocks].sort((a, b) => a.order - b.order). -/
def sortByOrder (blocks : List TimelineBlock) : List TimelineBlock :=
  blocks.foldr insertByOrder []

/-- blocks.reduce((sum, b) => sum + b.duration, 0), the denominator used for
export capture progress. -/
def totalDurationOf (blocks : List TimelineBlock) : ℚ :=
  blocks.foldl (fun sum b => sum + b.duration) 0

/-- State threaded through processNextBlock: whether the single media-element
audio source node exists yet, how many times createMediaElementSource ran,
the cumulative processed duration, the progress samples emitted so far, and
which blocks contributed capture respectively were skipped. -/
structure RunState where
  audioSourceCreated : Bool
  sourceCreations : ℕ
  processedDuration : ℚ
  progressEvents : List ℚ
  capturedBlockIds : List String
  skippedBlockIds : List String
deriving DecidableEq, Repr

/-- ExportPanel processNextBlock, one block at a time: a block whose clip is
absent is skipped with no capture and no progress sample; otherwise the audio
source is created if it does not exist yet, the block plays to its boundary
(captureLoopShouldStop), the processed duration grows by endTime minus
startTime, and the sample min(95, processed / total * 95) is emitted. When
the block list is exhausted the recorder is stopped. -/
def processNextBlock (clips : List VideoClip) (total : ℚ) :
    List TimelineBlock → RunState → RunState
  | [], st => st
  | block :: rest, st =>
    match clipFor clips block.clipId with
    | none =>
      processNextBlock clips total rest
        { st with skippedBlockIds := st.skippedBlockIds ++ [block.id] }
    | some _clip =>
      let st1 :=
        if st.audioSourceCreated then st
        else { st with audioSourceCreated := true, sourceCreations := st.sourceCreations + 1 }
      let segmentDuration := block.endTime - block.startTime
      let processed := st1.processedDuration + segmentDuration
      let progress := min 95 (processed / total * 95)
      processNextBlock clips total rest
        { st1 with
          processedDuration := processed,
          progressEvents := st1.progressEvents ++ [progress],
          capturedBlockIds := st1.capturedBlockIds ++ [block.id] }

/-- Terminal outcome of one export run. emptyTimeline is the guard return in
handleExport (reported as the no-clips error toast); firstClipNotFound is the
rejection thrown before the recorder starts; completed is the recorder onstop
path resolving the promise with the assembled WebM blob. -/
inductive ExportOutcome
  | emptyTimeline
  | firstClipNotFound
  | completed
deriving DecidableEq, Repr

/-- Observable trace of one export run. -/
structure ExportRun where
  outcome : ExportOutcome
  recorderStarted : Bool
  progressEvents : List ℚ
  sourceCreations : ℕ
  capturedBlockIds : List String
  skippedBlockIds : List String
deriving DecidableEq, Repr

/-- ExportPanel processAndMergeSegments over the sorted block list: the first
block's clip must exist (dimension probe) or the promise rejects before the
recorder starts; otherwise the recorder starts, the fixed initial sample 5 is
emitted, and the blocks are processed sequentially; when they are exhausted
the recorder stops and the promise resolves with the blob. -/
def processAndMergeSegments (blocks : List TimelineBlock) (clips : List VideoClip) : ExportRun :=
  match blocks with
  | [] => ⟨.firstClipNotFound, false, [], 0, [], []⟩
  | firstBlock :: _ =>
    match clipFor clips firstBlock.clipId with
    | none => ⟨.firstClipNotFound, false, [], 0, [], []⟩
    | some _firstClip =>
      let total := totalDurationOf blocks
      let final := processNextBlock clips total blocks
        ⟨false, 0, 0, [(5 : ℚ)], [], []⟩
      ⟨.completed, true, final.progressEvents, final.sourceCreations,
        final.capturedBlockIds, final.skippedBlockIds⟩

/-- ExportPanel handleExport: an empty timeline returns immediately with the
no-clips error before anything is created or started; otherwise the blocks
are sorted by order and processed. -/
def handleExport (timelineBlocks : List TimelineBlock) (clips : List VideoClip) : ExportRun :=
  if timelineBlocks.isEmpty then ⟨.emptyTimeline, false, [], 0, [], []⟩
  else processAndMergeSegments (sortByOrder timelineBlocks) clips

/-- The ExportPanel component state visible to handleCancel, together with
the in-flight run it would have to influence: isExporting and exportProgress
are the two React state fields the component owns. -/
structure ExportPanelState where
  isExporting : Bool
  exportProgress : ℚ
  run : ExportRun
deriving DecidableEq, Repr

/-- ExportPanel handleCancel: sets isExporting to false, resets the progress
display to 0 and shows a toast. It communicates nothing to the in-flight
run: no flag the capture loop reads, no recorder stop, no promise
rejection. -/
def handleCancel (s : ExportPanelState) : ExportPanelState :=
  { s with isExporting := false, exportProgress := 0 }

/-- The progress values the caller observes over a successful WebM export:
the initial setExportProgress(0), the run's samples forwarded unchanged, and
the final setExportProgress(100) after download. -/
def reportedProgressWebm (blocks : List TimelineBlock) (clips : List VideoClip) : List ℚ :=
  let r := handleExport blocks clips
  match r.outcome with
  | .completed => 0 :: r.progressEvents ++ [100]
  | _ => [0]

/-- JavaScript Math.round for the rationals appearing here: floor of x plus
one half (halves round up). -/
def jsRound (x : ℚ) : ℤ :=
  ⌊x + 1/2⌋

/-- ffmpegHelper transcodeVideo progress handler, the raw percent before
clamping: a progress ratio inside the unit interval becomes
round(progress * 100); otherwise a positive time sample (microseconds) gives
min(99, floor(time / 100000)); otherwise the initial 0 stands. -/
def transcodeProgressPercent (progressSample : Option ℚ) (timeSample : Option ℚ) : ℤ :=
  match progressSample with
  | some p =>
    if 0 ≤ p ∧ p ≤ 1 then jsRound (p * 100)
    else
      match timeSample with
      | some t => if 0 < t then min 99 ⌊t / 100000⌋ else 0
      | none => 0
  | none =>
    match timeSample with
    | some t => if 0 < t then min 99 ⌊t / 100000⌋ else 0
    | none => 0

/-- The value actually forwarded to onProgress:
Math.max(0, Math.min(100, progressPercent)). -/
def transcodeForwarded (progressSample : Option ℚ) (timeSample : Option ℚ) : ℤ :=
  max 0 (min 100 (transcodeProgressPercent progressSample timeSample))

/-- C4: with an empty segment list, handleExport returns the empty-timeline
error immediately (the no-clips toast path): the recorder is never started,
no progress is emitted, no audio source is created and no block is played or
captured. -/
theorem c4_empty_timeline_rejected_before_start (clips : List VideoClip) :
    handleExport [] clips = ⟨ExportOutcome.emptyTimeline, false, [], 0, [], []⟩ :=
  rfl

/-- C2 counterexample: with the tolerance the claim states (0.05 s), a
capture-loop tick at currentTime 4.96 against trimEnd 5 satisfies
currentTime ≥ trimEnd − 0.05, yet the export capture loop does not stop
there: its condition compares against trimEnd itself. -/
theorem c2_capture_loop_ignores_tolerance :
    ((5 : ℚ) - 1/20 ≤ 124/25) ∧
    captureLoopShouldStop 5 (124/25) false = false := by
  constructor
  · norm_num
  · norm_num [captureLoopShouldStop]

/-- C2 amended: the export capture loop stops a tick exactly when
currentTime has reached block.endTime or the element has ended (no
tolerance is subtracted), while the preview player's time-update handler
pauses and advances exactly when videoTime has reached the block's endTime
minus 0.05 s. -/
theorem c2_boundary_detection_amended (blockEndTime currentTime : ℚ) (ended : Bool)
    (sortedBlocks : List TimelineBlock) (idx : ℕ) (videoTime : ℚ) (b : TimelineBlock)
    (hb : sortedBlocks.get? idx = some b) :
    (captureLoopShouldStop blockEndTime currentTime ended = true ↔
      (blockEndTime ≤ currentTime ∨ ended = true)) ∧
    ((handleTimeUpdate sortedBlocks idx videoTime false = TimeUpdateAction.boundaryNext ∨
      handleTimeUpdate sortedBlocks idx videoTime false = TimeUpdateAction.boundaryLoop) ↔
      b.endTime - 1/20 ≤ videoTime) := by
  constructor
  · simp [captureLoopShouldStop]
  · simp only [handleTimeUpdate, Bool.false_eq_true, if_false, hb]
    by_cases h : b.endTime - 1/20 ≤ videoTime
    · simp only [h, if_true]
      by_cases h2 : idx < sortedBlocks.length - 1 <;> simp [h2]
    · simp only [h, if_false]
      by_cases h3 : videoTime < b.startTime <;> simp [h, h3]

/-- Concrete block for the C2 witness. -/
def c2Block : TimelineBlock :=
  ⟨"b1", "c1", 0, 0, 2, 2⟩

/-- C2 witness: the amended boundary characterisation evaluated on a
one-block preview list at a tick exactly on the block end. -/
theorem c2_boundary_detection_witness :
    (captureLoopShouldStop 2 2 false = true ↔ ((2 : ℚ) ≤ 2 ∨ false = true)) ∧
    ((handleTimeUpdate [c2Block] 0 2 false = TimeUpdateAction.boundaryNext ∨
      handleTimeUpdate [c2Block] 0 2 false = TimeUpdateAction.boundaryLoop) ↔
      c2Block.endTime - 1/20 ≤ 2) :=
  c2_boundary_detection_amended 2 2 false [c2Block] 0 2 c2Block rfl

/-- Concrete block for the C7 counterexample: trimmed range 2 to 5 inside a
10 s clip, so the trim invariant holds beforehand. -/
def c7Block : TimelineBlock :=
  ⟨"b1", "c1", 0, 2, 5, 3⟩

/-- C7 counterexample: pressing the out-point key at playhead time 15 (the
playhead carries cumulative timeline time, so 15 is reachable while the
clip is only 10 s long) moves trimEnd to 15 with no clamp against the clip
duration, breaking trimEnd ≤ sourceDuration. -/
theorem c7_out_point_exceeds_source_duration :
    trimInvariant c7Block 10 ∧ ¬ trimInvariant (keyOSetOutPoint c7Block 15) 10 := by
  norm_num [trimInvariant, keyOSetOutPoint, applyBlockUpdates, BlockUpdates.empty, c7Block]

/-- C7 amended: from any block with 0 ≤ trimStart < trimEnd (and a
nonnegative playhead for the key operations), every trim operation keeps
0 ≤ trimStart < trimEnd; the start drag and the in-point key additionally
leave trimEnd unchanged, so they preserve trimEnd ≤ sourceDuration, but the
end drag and out-point key enforce no upper bound tied to the clip
duration. -/
theorem c7_trim_ops_preserve_order_invariant (b : TimelineBlock)
    (clipDuration mouseFrac mouseFrac2 currentTime : ℚ)
    (h0 : 0 ≤ b.startTime) (h1 : b.startTime < b.endTime) (hcur : 0 ≤ currentTime) :
    (0 ≤ (releasedStartDrag b mouseFrac).startTime ∧
     (releasedStartDrag b mouseFrac).startTime < (releasedStartDrag b mouseFrac).endTime ∧
     (releasedStartDrag b mouseFrac).endTime = b.endTime) ∧
    (0 ≤ (releasedEndDrag b clipDuration mouseFrac2).startTime ∧
     (releasedEndDrag b clipDuration mouseFrac2).startTime
       < (releasedEndDrag b clipDuration mouseFrac2).endTime) ∧
    (0 ≤ (keyISetInPoint b currentTime).startTime ∧
     (keyISetInPoint b currentTime).startTime < (keyISetInPoint b currentTime).endTime ∧
     (keyISetInPoint b currentTime).endTime = b.endTime) ∧
    (0 ≤ (keyOSetOutPoint b currentTime).startTime ∧
     (keyOSetOutPoint b currentTime).startTime < (keyOSetOutPoint b currentTime).endTime) := by
  refine ⟨?_, ?_, ?_, ?_⟩
  · have hs : (releasedStartDrag b mouseFrac).startTime
        = max 0 (min (b.startTime + mouseFrac * (b.endTime - b.startTime)) (b.endTime - 1/10)) :=
      rfl
    have he : (releasedStartDrag b mouseFrac).endTime = b.endTime := rfl
    rw [hs, he]
    refine ⟨le_max_left _ _, ?_, rfl⟩
    exact max_lt (by linarith) (lt_of_le_of_lt (min_le_right _ _) (by linarith))
  · have hs : (releasedEndDrag b clipDuration mouseFrac2).startTime = b.startTime := rfl
    have he : (releasedEndDrag b clipDuration mouseFrac2).endTime
        = max (b.startTime + 1/10)
            (min (b.startTime + mouseFrac2 * (b.endTime - b.startTime)) clipDuration) :=
      rfl
    rw [hs, he]
    exact ⟨h0, lt_of_lt_of_le (by linarith) (le_max_left _ _)⟩
  · by_cases h : (1 : ℚ)/10 < b.endTime - currentTime
    · have hs : (keyISetInPoint b currentTime).startTime = currentTime := by
        simp only [keyISetInPoint, h, if_true, applyBlockUpdates, BlockUpdates.empty,
          Option.getD_some]
      have he : (keyISetInPoint b currentTime).endTime = b.endTime := by
        simp only [keyISetInPoint, h, if_true, applyBlockUpdates, BlockUpdates.empty,
          Option.getD_none]
      rw [hs, he]
      exact ⟨hcur, by linarith, rfl⟩
    · have hb : keyISetInPoint b currentTime = b := by
        simp only [keyISetInPoint, h, if_false]
      rw [hb]
      exact ⟨h0, h1, rfl⟩
  · by_cases h : (1 : ℚ)/10 < currentTime - b.startTime
    · have hs : (keyOSetOutPoint b currentTime).startTime = b.startTime := by
        simp only [keyOSetOutPoint, h, if_true, applyBlockUpdates, BlockUpdates.empty,
          Option.getD_none]
      have he : (keyOSetOutPoint b currentTime).endTime = currentTime := by
        simp only [keyOSetOutPoint, h, if_true, applyBlockUpdates, BlockUpdates.empty,
          Option.getD_some]
      rw [hs, he]
      exact ⟨h0, by linarith⟩
    · have hb : keyOSetOutPoint b currentTime = b := by
        simp only [keyOSetOutPoint, h, if_false]
      rw [hb]
      exact ⟨h0, h1⟩

/-- Concrete block for the C7 witness: trimmed range 1 to 3 inside a 10 s
clip, playhead at 2. -/
def c7WitnessBlock : TimelineBlock :=
  ⟨"w1", "c1", 0, 1, 3, 2⟩

/-- C7 witness: the amended trim preservation evaluated on a concrete block
with a valid trim range. -/
theorem c7_trim_ops_witness :
    (0 ≤ (releasedStartDrag c7WitnessBlock (1/2)).startTime ∧
     (releasedStartDrag c7WitnessBlock (1/2)).startTime
       < (releasedStartDrag c7WitnessBlock (1/2)).endTime ∧
     (releasedStartDrag c7WitnessBlock (1/2)).endTime = c7WitnessBlock.endTime) ∧
    (0 ≤ (releasedEndDrag c7WitnessBlock 10 (1/2)).startTime ∧
     (releasedEndDrag c7WitnessBlock 10 (1/2)).startTime
       < (releasedEndDrag c7WitnessBlock 10 (1/2)).endTime) ∧
    (0 ≤ (keyISetInPoint c7WitnessBlock 2).startTime ∧
     (keyISetInPoint c7WitnessBlock 2).startTime < (keyISetInPoint c7WitnessBlock 2).endTime ∧
     (keyISetInPoint c7WitnessBlock 2).endTime = c7WitnessBlock.endTime) ∧
    (0 ≤ (keyOSetOutPoint c7WitnessBlock 2).startTime ∧
     (keyOSetOutPoint c7WitnessBlock 2).startTime < (keyOSetOutPoint c7WitnessBlock 2).endTime) :=
  c7_trim_ops_preserve_order_invariant c7WitnessBlock 10 (1/2) (1/2) 2
    (by decide) (by decide) (by decide)

/-- Concrete run for C1: one block, its clip present. -/
def c1Block : TimelineBlock :=
  ⟨"b1", "c1", 0, 0, 2, 2⟩

/-- Clip backing the C1 run. -/
def c1Clip : VideoClip :=
  ⟨"c1", ⟨10⟩, 0, 10, ⟨100, false⟩⟩

/-- C1 (code bug): handleCancel rewrites only the two UI fields — it stops
no loop, no recorder and rejects no promise, so the in-flight run is
untouched; on the concrete mid-run cancellation input the run still resolves
with the WebM blob (outcome completed), the block's capture callbacks still
execute (the block appears in capturedBlockIds) and the run's progress
samples are all emitted. -/
theorem c1_cancel_leaves_run_untouched (s : ExportPanelState) :
    (handleCancel s).run = s.run ∧
    (handleCancel s).isExporting = false ∧
    (handleCancel s).exportProgress = 0 ∧
    (handleExport [c1Block] [c1Clip]).outcome = ExportOutcome.completed ∧
    (handleExport [c1Block] [c1Clip]).capturedBlockIds = ["b1"] ∧
    (handleExport [c1Block] [c1Clip]).progressEvents = [5, 95] := by
  refine ⟨rfl, rfl, rfl, ?_, ?_, ?_⟩ <;>
    norm_num [handleExport, processAndMergeSegments, processNextBlock, clipFor,
      totalDurationOf, sortByOrder, insertByOrder, List.find?, List.foldr, List.foldl,
      List.isEmpty, c1Block, c1Clip]

/-- First block of the C6 counterexample run: 1 s out of a 101 s total. -/
def c6BlockA : TimelineBlock :=
  ⟨"a1", "c1", 0, 0, 1, 1⟩

/-- Second block of the C6 counterexample run: 100 s. -/
def c6BlockB : TimelineBlock :=
  ⟨"b1", "c1", 1, 0, 100, 100⟩

/-- Clip backing the C6 counterexample run. -/
def c6Clip : VideoClip :=
  ⟨"c1", ⟨100⟩, 0, 100, ⟨100, false⟩⟩

/-- C6 counterexample: over this two-block WebM run the caller observes the
sequence 0, 5, 95/101, 95, 100 — the boundary sample after the short first
segment (95/101 < 1) regresses below the fixed initial marker 5, so the
reported sequence is not monotonically non-decreasing. -/
theorem c6_reported_progress_not_monotone :
    reportedProgressWebm [c6BlockA, c6BlockB] [c6Clip] = [0, 5, 95/101, 95, 100] ∧
    ¬ List.Chain' (fun x y => x ≤ y) (reportedProgressWebm [c6BlockA, c6BlockB] [c6Clip]) := by
  have h : reportedProgressWebm [c6BlockA, c6BlockB] [c6Clip] = [0, 5, 95/101, 95, 100] := by
    norm_num [reportedProgressWebm, handleExport, processAndMergeSegments, processNextBlock,
      clipFor, totalDurationOf, sortByOrder, insertByOrder, List.find?, List.foldr, List.foldl,
      List.isEmpty, c6BlockA, c6BlockB, c6Clip]
  refine ⟨h, ?_⟩
  rw [h]
  simp only [List.chain'_cons, List.chain'_singleton, and_true]
  intro hc
  have := hc.2.1
  norm_num at this

/-- C6 amended: every raw transcode progress sample is clamped into [0, 100]
before being forwarded to the caller; monotonicity of the reported sequence
is nowhere enforced, and the capture stage's first boundary sample can fall
below the fixed initial marker (see the counterexample). -/
theorem c6_transcode_samples_clamped (progressSample timeSample : Option ℚ) :
    0 ≤ transcodeForwarded progressSample timeSample ∧
    transcodeForwarded progressSample timeSample ≤ 100 := by
  unfold transcodeForwarded
  exact ⟨le_max_left _ _, max_le (by norm_num) (min_le_left _ _)⟩

/-- Capture-stage progress samples as the spec states them: one sample per
block whose clip is found, each equal to min(95, cumulative / total * 95)
where cumulative accumulates endTime minus startTime over the blocks played
so far. This definition follows the spec wording and is compared against the
embedded code below. -/
def specCaptureProgress (clips : List VideoClip) (total : ℚ) :
    List TimelineBlock → ℚ → List ℚ
  | [], _ => []
  | b :: rest, cum =>
    match clipFor clips b.clipId with
    | none => specCaptureProgress clips total rest cum
    | some _ =>
      let cumNew := cum + (b.endTime - b.startTime)
      min 95 (cumNew / total * 95) :: specCaptureProgress clips total rest cumNew

/-- Ids of the blocks whose clip lookup succeeds, in list order. -/
def foundIds (clips : List VideoClip) (blocks : List TimelineBlock) : List String :=
  (blocks.filter (fun b => (clipFor clips b.clipId).isSome)).map (fun b => b.id)

/-- Ids of the blocks whose clip lookup fails, in list order. -/
def missingIds (clips : List VideoClip) (blocks : List TimelineBlock) : List String :=
  (blocks.filter (fun b => (clipFor clips b.clipId).isNone)).map (fun b => b.id)

/-- Total trimmed duration the run actually plays: endTime minus startTime
summed over the blocks whose clip is found. -/
def processedTotal (clips : List VideoClip) (blocks : List TimelineBlock) : ℚ :=
  ((blocks.filter (fun b => (clipFor clips b.clipId).isSome)).map
    (fun b => b.endTime - b.startTime)).sum

theorem processNextBlock_events (clips : List VideoClip) (total : ℚ)
    (blocks : List TimelineBlock) (st : RunState) :
    (processNextBlock clips total blocks st).progressEvents
      = st.progressEvents ++ specCaptureProgress clips total blocks st.processedDuration := by
  induction blocks generalizing st with
  | nil => simp [processNextBlock, specCaptureProgress]
  | cons b rest ih =>
    cases hfind : clipFor clips b.clipId with
    | none => simp [processNextBlock, specCaptureProgress, hfind, ih]
    | some c =>
      by_cases hA : st.audioSourceCreated
      · simp [processNextBlock, specCaptureProgress, hfind, hA, ih]
      · simp [processNextBlock, specCaptureProgress, hfind, hA, ih]

theorem processNextBlock_captured (clips : List VideoClip) (total : ℚ)
    (blocks : List TimelineBlock) (st : RunState) :
    (processNextBlock clips total blocks st).capturedBlockIds
      = st.capturedBlockIds ++ foundIds clips blocks := by
  induction blocks generalizing st with
  | nil => simp [processNextBlock, foundIds]
  | cons b rest ih =>
    cases hfind : clipFor clips b.clipId with
    | none => simp [processNextBlock, foundIds, hfind, ih, List.filter_cons]
    | some c =>
      by_cases hA : st.audioSourceCreated
      · simp [processNextBlock, foundIds, hfind, hA, ih, List.filter_cons]
      · simp [processNextBlock, foundIds, hfind, hA, ih, List.filter_cons]

theorem processNextBlock_skipped (clips : List VideoClip) (total : ℚ)
    (blocks : List TimelineBlock) (st : RunState) :
    (processNextBlock clips total blocks st).skippedBlockIds
      = st.skippedBlockIds ++ missingIds clips blocks := by
  induction blocks generalizing st with
  | nil => simp [processNextBlock, missingIds]
  | cons b rest ih =>
    cases hfind : clipFor clips b.clipId with
    | none => simp [processNextBlock, missingIds, hfind, ih, List.filter_cons]
    | some c =>
      by_cases hA : st.audioSourceCreated
      · simp [processNextBlock, missingIds, hfind, hA, ih, List.filter_cons]
      · simp [processNextBlock, missingIds, hfind, hA, ih, List.filter_cons]

theorem processNextBlock_cons_missing (clips : List VideoClip) (total : ℚ)
    (b : TimelineBlock) (rest : List TimelineBlock) (st : RunState)
    (hfind : clipFor clips b.clipId = none) :
    processNextBlock clips total (b :: rest) st
      = processNextBlock clips total rest
          { st with skippedBlockIds := st.skippedBlockIds ++ [b.id] } := by
  simp [processNextBlock, hfind]

theorem processNextBlock_cons_found (clips : List VideoClip) (total : ℚ)
    (b : TimelineBlock) (rest : List TimelineBlock) (st : RunState) (c : VideoClip)
    (hfind : clipFor clips b.clipId = some c) :
    processNextBlock clips total (b :: rest) st
      = processNextBlock clips total rest
          { audioSourceCreated := true,
            sourceCreations := st.sourceCreations + (if st.audioSourceCreated then 0 else 1),
            processedDuration := st.processedDuration + (b.endTime - b.startTime),
            progressEvents := st.progressEvents
              ++ [min 95 ((st.processedDuration + (b.endTime - b.startTime)) / total * 95)],
            capturedBlockIds := st.capturedBlockIds ++ [b.id],
            skippedBlockIds := st.skippedBlockIds } := by
  by_cases hA : st.audioSourceCreated
  · simp [processNextBlock, hfind, hA]
  · simp [processNextBlock, hfind, hA]

theorem processNextBlock_sourceCreations_le (clips : List VideoClip) (total : ℚ)
    (blocks : List TimelineBlock) (st : RunState) :
    (processNextBlock clips total blocks st).sourceCreations
      ≤ st.sourceCreations + (if st.audioSourceCreated then 0 else 1) := by
  induction blocks generalizing st with
  | nil =>
    simp only [processNextBlock]
    split <;> omega
  | cons b rest ih =>
    cases hfind : clipFor clips b.clipId with
    | none =>
      rw [processNextBlock_cons_missing clips total b rest st hfind]
      exact ih _
    | some c =>
      rw [processNextBlock_cons_found clips total b rest st c hfind]
      have h := ih ⟨true, st.sourceCreations + (if st.audioSourceCreated then 0 else 1),
        st.processedDuration + (b.endTime - b.startTime),
        st.progressEvents
          ++ [min 95 ((st.processedDuration + (b.endTime - b.startTime)) / total * 95)],
        st.capturedBlockIds ++ [b.id], st.skippedBlockIds⟩
      simpa using h

theorem processNextBlock_sourceCreations_ge (clips : List VideoClip) (total : ℚ)
    (blocks : List TimelineBlock) (st : RunState) :
    st.sourceCreations ≤ (processNextBlock clips total blocks st).sourceCreations := by
  induction blocks generalizing st with
  | nil => simp [processNextBlock]
  | cons b rest ih =>
    cases hfind : clipFor clips b.clipId with
    | none =>
      rw [processNextBlock_cons_missing clips total b rest st hfind]
      exact ih { st with skippedBlockIds := st.skippedBlockIds ++ [b.id] }
    | some c =>
      rw [processNextBlock_cons_found clips total b rest st c hfind]
      have h := ih ⟨true, st.sourceCreations + (if st.audioSourceCreated then 0 else 1),
        st.processedDuration + (b.endTime - b.startTime),
        st.progressEvents
          ++ [min 95 ((st.processedDuration + (b.endTime - b.startTime)) / total * 95)],
        st.capturedBlockIds ++ [b.id], st.skippedBlockIds⟩
      exact le_trans (Nat.le_add_right _ _) h

theorem processNextBlock_first_found_creations (clips : List VideoClip) (total : ℚ)
    (b0 : TimelineBlock) (rest : List TimelineBlock) (c0 : VideoClip) (st : RunState)
    (hfound : clipFor clips b0.clipId = some c0) (hA : st.audioSourceCreated = false) :
    st.sourceCreations + 1 ≤ (processNextBlock clips total (b0 :: rest) st).sourceCreations := by
  rw [processNextBlock_cons_found clips total b0 rest st c0 hfound]
  have h := processNextBlock_sourceCreations_ge clips total rest
    ⟨true, st.sourceCreations + (if st.audioSourceCreated then 0 else 1),
     st.processedDuration + (b0.endTime - b0.startTime),
     st.progressEvents
       ++ [min 95 ((st.processedDuration + (b0.endTime - b0.startTime)) / total * 95)],
     st.capturedBlockIds ++ [b0.id], st.skippedBlockIds⟩
  simp only [hA, Bool.false_eq_true, if_false] at h ⊢
  exact h

theorem foldl_add_duration (blocks : List TimelineBlock) (init : ℚ) :
    blocks.foldl (fun sum b => sum + b.duration) init
      = init + (blocks.map (fun b => b.duration)).sum := by
  induction blocks generalizing init with
  | nil => simp
  | cons b rest ih =>
    simp only [List.foldl_cons, List.map_cons, List.sum_cons, ih]
    ring

theorem totalDurationOf_eq_sum (blocks : List TimelineBlock) :
    totalDurationOf blocks = (blocks.map (fun b => b.duration)).sum := by
  simpa [totalDurationOf] using foldl_add_duration blocks 0

theorem sum_duration_split (clips : List VideoClip) (blocks : List TimelineBlock) :
    (blocks.map (fun b => b.duration)).sum
      = ((blocks.filter (fun b => (clipFor clips b.clipId).isSome)).map
          (fun b => b.duration)).sum
        + ((blocks.filter (fun b => (clipFor clips b.clipId).isNone)).map
            (fun b => b.duration)).sum := by
  induction blocks with
  | nil => simp
  | cons b rest ih =>
    cases hfind : clipFor clips b.clipId <;> simp [List.filter_cons, hfind, ih] <;> ring

theorem processedTotal_eq_sum_duration (clips : List VideoClip) (blocks : List TimelineBlock)
    (hdur : ∀ b ∈ blocks, b.duration = b.endTime - b.startTime) :
    processedTotal clips blocks
      = ((blocks.filter (fun b => (clipFor clips b.clipId).isSome)).map
          (fun b => b.duration)).sum := by
  induction blocks with
  | nil => simp [processedTotal]
  | cons b rest ih =>
    have hb := hdur b (List.mem_cons_self b rest)
    have hrest := fun x hx => hdur x (List.mem_cons_of_mem b hx)
    cases hfind : clipFor clips b.clipId with
    | none =>
      have hfilter : (b :: rest).filter (fun x => (clipFor clips x.clipId).isSome)
          = rest.filter (fun x => (clipFor clips x.clipId).isSome) := by
        simp [List.filter_cons, hfind]
      simp only [processedTotal, hfilter]
      simpa [processedTotal] using ih hrest
    | some c =>
      have hfilter : (b :: rest).filter (fun x => (clipFor clips x.clipId).isSome)
          = b :: rest.filter (fun x => (clipFor clips x.clipId).isSome) := by
        simp [List.filter_cons, hfind]
      have hih := ih hrest
      simp only [processedTotal] at hih
      simp only [processedTotal, hfilter, List.map_cons, List.sum_cons]
      rw [hih, hb]

theorem processedTotal_nonneg (clips : List VideoClip) (blocks : List TimelineBlock)
    (hnn : ∀ b ∈ blocks, (clipFor clips b.clipId).isSome = true → 0 ≤ b.endTime - b.startTime) :
    0 ≤ processedTotal clips blocks := by
  apply List.sum_nonneg
  intro x hx
  obtain ⟨b, hb, rfl⟩ := List.mem_map.1 hx
  have hmem := List.mem_filter.1 hb
  exact hnn b hmem.1 hmem.2

theorem specCaptureProgress_le_95 (clips : List VideoClip) (total : ℚ)
    (blocks : List TimelineBlock) (cum : ℚ) :
    ∀ p ∈ specCaptureProgress clips total blocks cum, p ≤ 95 := by
  induction blocks generalizing cum with
  | nil => simp [specCaptureProgress]
  | cons b rest ih =>
    intro p hp
    cases hfind : clipFor clips b.clipId with
    | none =>
      rw [specCaptureProgress, hfind] at hp
      exact ih cum p hp
    | some c =>
      rw [specCaptureProgress, hfind] at hp
      rcases List.mem_cons.1 hp with rfl | hp2
      · exact min_le_left _ _
      · exact ih _ p hp2

theorem specCaptureProgress_lt_95 (clips : List VideoClip) (total : ℚ)
    (blocks : List TimelineBlock) :
    ∀ cum : ℚ,
      (∀ b ∈ blocks, (clipFor clips b.clipId).isSome = true → 0 ≤ b.endTime - b.startTime) →
      0 < total →
      cum + processedTotal clips blocks < total →
      ∀ p ∈ specCaptureProgress clips total blocks cum, p < 95 := by
  induction blocks with
  | nil =>
    intro cum _ _ _ p hp
    simp [specCaptureProgress] at hp
  | cons b rest ih =>
    intro cum hnn htot hlt p hp
    have hnn_rest : ∀ x ∈ rest,
        (clipFor clips x.clipId).isSome = true → 0 ≤ x.endTime - x.startTime :=
      fun x hx h => hnn x (List.mem_cons_of_mem b hx) h
    cases hfind : clipFor clips b.clipId with
    | none =>
      have hpt : processedTotal clips (b :: rest) = processedTotal clips rest := by
        simp [processedTotal, List.filter_cons, hfind]
      rw [specCaptureProgress, hfind] at hp
      exact ih cum hnn_rest htot (by rw [← hpt]; exact hlt) p hp
    | some c =>
      have hpt : processedTotal clips (b :: rest)
          = (b.endTime - b.startTime) + processedTotal clips rest := by
        simp [processedTotal, List.filter_cons, hfind]
      rw [hpt] at hlt
      have hd : 0 ≤ b.endTime - b.startTime :=
        hnn b (List.mem_cons_self b rest) (by simp [hfind])
      have hptr : 0 ≤ processedTotal clips rest := processedTotal_nonneg clips rest hnn_rest
      rw [specCaptureProgress, hfind] at hp
      rcases List.mem_cons.1 hp with rfl | hp2
      · have hcum : cum + (b.endTime - b.startTime) < total := by linarith
        have hfrac : (cum + (b.endTime - b.startTime)) / total * 95 < 95 := by
          rw [div_mul_eq_mul_div, div_lt_iff₀ htot]
          nlinarith
        exact lt_of_le_of_lt (min_le_right _ _) hfrac
      · exact ih (cum + (b.endTime - b.startTime)) hnn_rest htot (by linarith) p hp2

/-- C3: over any export run the media-element audio source adapter is created
at most once (createMediaElementSource is guarded by the memoised
audioSource), and whenever the run proceeds past its setup (the sorted list
is non-empty and its first block's clip is found) it is created exactly once:
by the first block, then reused by every later block. -/
theorem c3_audio_source_bound_at_most_once (timelineBlocks : List TimelineBlock)
    (clips : List VideoClip) :
    (handleExport timelineBlocks clips).sourceCreations ≤ 1 ∧
    (∀ (b0 : TimelineBlock) (rest : List TimelineBlock) (c0 : VideoClip),
      sortByOrder timelineBlocks = b0 :: rest →
      clipFor clips b0.clipId = some c0 →
      (handleExport timelineBlocks clips).sourceCreations = 1) := by
  constructor
  · by_cases hempty : timelineBlocks.isEmpty
    · simp [handleExport, hempty]
    · rw [handleExport, if_neg hempty]
      generalize sortByOrder timelineBlocks = sorted
      cases sorted with
      | nil => simp [processAndMergeSegments]
      | cons b0 rest =>
        cases hfind : clipFor clips b0.clipId with
        | none => simp [processAndMergeSegments, hfind]
        | some c =>
          simp only [processAndMergeSegments, hfind]
          have h := processNextBlock_sourceCreations_le clips
            (totalDurationOf (b0 :: rest)) (b0 :: rest) ⟨false, 0, 0, [(5 : ℚ)], [], []⟩
          simpa using h
  · intro b0 rest c0 hsort hfound
    have hne : ¬ timelineBlocks.isEmpty = true := by
      intro habs
      rw [List.isEmpty_iff.1 habs] at hsort
      simp [sortByOrder] at hsort
    rw [handleExport, if_neg hne, hsort]
    simp only [processAndMergeSegments, hfound]
    refine le_antisymm ?_ ?_
    · have h := processNextBlock_sourceCreations_le clips
        (totalDurationOf (b0 :: rest)) (b0 :: rest) ⟨false, 0, 0, [(5 : ℚ)], [], []⟩
      simpa using h
    · have h := processNextBlock_first_found_creations clips
        (totalDurationOf (b0 :: rest)) b0 rest c0 ⟨false, 0, 0, [(5 : ℚ)], [], []⟩ hfound rfl
      simpa using h

/-- Clip backing the C3 witness run. -/
def c3Clip : VideoClip :=
  ⟨"c1", ⟨50⟩, 0, 50, ⟨100, false⟩⟩

/-- Five-segment timeline for the C3 witness, matching the spec's invariant
test of binding a 5-segment run. -/
def c3Blocks : List TimelineBlock :=
  [⟨"b1", "c1", 0, 0, 1, 1⟩, ⟨"b2", "c1", 1, 1, 2, 1⟩, ⟨"b3", "c1", 2, 2, 3, 1⟩,
   ⟨"b4", "c1", 3, 3, 4, 1⟩, ⟨"b5", "c1", 4, 4, 5, 1⟩]

/-- C3 witness: a five-segment run creates the audio source exactly once. -/
theorem c3_five_segment_witness :
    (handleExport c3Blocks [c3Clip]).sourceCreations = 1 :=
  (c3_audio_source_bound_at_most_once c3Blocks [c3Clip]).2
    ⟨"b1", "c1", 0, 0, 1, 1⟩
    [⟨"b2", "c1", 1, 1, 2, 1⟩, ⟨"b3", "c1", 2, 2, 3, 1⟩, ⟨"b4", "c1", 3, 3, 4, 1⟩,
     ⟨"b5", "c1", 4, 4, 5, 1⟩]
    c3Clip (by rfl) (by rfl)

/-- C5: whenever the capture stage runs (first block's clip found), the
recorder is started, the emitted progress samples are exactly the fixed
initial marker 5 followed by one boundary sample
min(95, cumulativeProcessedDuration / totalDuration * 95) per played block,
and every emitted sample is at most 95. -/
theorem c5_capture_progress_formula (b0 : TimelineBlock) (rest : List TimelineBlock)
    (clips : List VideoClip) (c0 : VideoClip)
    (hfirst : clipFor clips b0.clipId = some c0) :
    (processAndMergeSegments (b0 :: rest) clips).recorderStarted = true ∧
    (processAndMergeSegments (b0 :: rest) clips).progressEvents
      = 5 :: specCaptureProgress clips (totalDurationOf (b0 :: rest)) (b0 :: rest) 0 ∧
    ∀ p ∈ (processAndMergeSegments (b0 :: rest) clips).progressEvents, p ≤ 95 := by
  have hev : (processAndMergeSegments (b0 :: rest) clips).progressEvents
      = 5 :: specCaptureProgress clips (totalDurationOf (b0 :: rest)) (b0 :: rest) 0 := by
    simp only [processAndMergeSegments, hfirst]
    rw [processNextBlock_events]
    rfl
  refine ⟨?_, hev, ?_⟩
  · simp [processAndMergeSegments, hfirst]
  · intro p hp
    rw [hev] at hp
    rcases List.mem_cons.1 hp with rfl | hp2
    · norm_num
    · exact specCaptureProgress_le_95 clips _ _ _ p hp2

/-- Block for the C5 witness. -/
def c5Block : TimelineBlock :=
  ⟨"b1", "c1", 0, 0, 2, 2⟩

/-- Clip backing the C5 witness. -/
def c5Clip : VideoClip :=
  ⟨"c1", ⟨10⟩, 0, 10, ⟨100, false⟩⟩

/-- C5 witness: the progress characterisation on a concrete one-block run. -/
theorem c5_capture_progress_witness :
    (processAndMergeSegments [c5Block] [c5Clip]).recorderStarted = true ∧
    (processAndMergeSegments [c5Block] [c5Clip]).progressEvents
      = 5 :: specCaptureProgress [c5Clip] (totalDurationOf [c5Block]) [c5Block] 0 ∧
    ∀ p ∈ (processAndMergeSegments [c5Block] [c5Clip]).progressEvents, p ≤ 95 :=
  c5_capture_progress_formula c5Block [] [c5Clip] c5Clip rfl
/-- First block of the C10 witness run (clip present). -/
def c10BlockA : TimelineBlock :=
  ⟨"a1", "c1", 0, 0, 2, 2⟩

/-- Second block of the C10 witness run: references a clip id that no clip
carries. -/
def c10BlockM : TimelineBlock :=
  ⟨"m1", "zz", 1, 0, 3, 3⟩

/-- Clip backing the C10 runs. -/
def c10Clip : VideoClip :=
  ⟨"c1", ⟨10⟩, 0, 10, ⟨100, false⟩⟩

/-- Dangling block that sorts first in the C10 counterexample run. -/
def c10FirstMissing : TimelineBlock :=
  ⟨"m0", "zz", 0, 0, 3, 3⟩

/-- Valid second block of the C10 counterexample run. -/
def c10SecondValid : TimelineBlock :=
  ⟨"a2", "c1", 1, 0, 2, 2⟩

/-- C10 counterexample: with the dangling block first in sorted order the
claim fails — the block is not skipped and the run does not complete with a
blob: the dimension probe throws the first-clip-not-found error and the
promise rejects before the recorder starts, capturing nothing and emitting
no progress, although the other block's clip is present. -/
theorem c10_first_dangling_block_rejects_run :
    (handleExport [c10FirstMissing, c10SecondValid] [c10Clip]).outcome
      ≠ ExportOutcome.completed ∧
    (handleExport [c10FirstMissing, c10SecondValid] [c10Clip]).recorderStarted = false ∧
    (handleExport [c10FirstMissing, c10SecondValid] [c10Clip]).skippedBlockIds = [] ∧
    (handleExport [c10FirstMissing, c10SecondValid] [c10Clip]).capturedBlockIds = [] ∧
    (handleExport [c10FirstMissing, c10SecondValid] [c10Clip]).progressEvents = [] := by
  have h : handleExport [c10FirstMissing, c10SecondValid] [c10Clip]
      = ⟨ExportOutcome.firstClipNotFound, false, [], 0, [], []⟩ := rfl
  rw [h]
  refine ⟨?_, rfl, rfl, rfl, rfl⟩
  simp

/-- C10 amended: if the first sorted block's clip is missing, the run is not
skipped over it — it rejects with the first-clip-not-found error before the
recorder starts, with no capture and no progress. Otherwise (first block's
clip found) a block whose clip is missing is silently skipped: it is logged
among the skipped ids, the captured ids are exactly the blocks whose clip was
found, the run still completes with a blob, and — its positive duration still
weighing in the totalDuration denominator while each block's duration equals
its trimmed length and durations are nonnegative — every emitted capture
progress sample stays strictly below the 95 cap. -/
theorem c10_missing_clip_amended (b0 : TimelineBlock) (rest : List TimelineBlock)
    (clips : List VideoClip) (m : TimelineBlock) :
    (clipFor clips b0.clipId = none →
      processAndMergeSegments (b0 :: rest) clips
        = ⟨ExportOutcome.firstClipNotFound, false, [], 0, [], []⟩) ∧
    (∀ c0 : VideoClip, clipFor clips b0.clipId = some c0 →
      m ∈ b0 :: rest → clipFor clips m.clipId = none → 0 < m.duration →
      (∀ b ∈ b0 :: rest, b.duration = b.endTime - b.startTime) →
      (∀ b ∈ b0 :: rest, 0 ≤ b.duration) →
      (processAndMergeSegments (b0 :: rest) clips).outcome = ExportOutcome.completed ∧
      m.id ∈ (processAndMergeSegments (b0 :: rest) clips).skippedBlockIds ∧
      (processAndMergeSegments (b0 :: rest) clips).capturedBlockIds
        = foundIds clips (b0 :: rest) ∧
      ∀ p ∈ (processAndMergeSegments (b0 :: rest) clips).progressEvents, p < 95) := by
  constructor
  · intro hmiss0
    simp [processAndMergeSegments, hmiss0]
  · intro c0 hfirst hm hmiss hmdur hdur hnn
    have hnn2 : ∀ b ∈ b0 :: rest,
        (clipFor clips b.clipId).isSome = true → 0 ≤ b.endTime - b.startTime := by
      intro b hb _
      rw [← hdur b hb]
      exact hnn b hb
    have hsumnn : ∀ x ∈ ((b0 :: rest).filter
        (fun b => (clipFor clips b.clipId).isNone)).map (fun b => b.duration), 0 ≤ x := by
      intro x hx
      obtain ⟨b, hb, rfl⟩ := List.mem_map.1 hx
      exact hnn b (List.mem_filter.1 hb).1
    have hmissSum : m.duration
        ≤ (((b0 :: rest).filter (fun b => (clipFor clips b.clipId).isNone)).map
            (fun b => b.duration)).sum := by
      apply List.single_le_sum hsumnn
      exact List.mem_map.2 ⟨m, List.mem_filter.2 ⟨hm, by simp [hmiss]⟩, rfl⟩
    have hsplit := sum_duration_split clips (b0 :: rest)
    have htotEq := totalDurationOf_eq_sum (b0 :: rest)
    have hptEq := processedTotal_eq_sum_duration clips (b0 :: rest) hdur
    have hlt : processedTotal clips (b0 :: rest) < totalDurationOf (b0 :: rest) := by
      rw [hptEq, htotEq, hsplit]
      linarith
    have htot : 0 < totalDurationOf (b0 :: rest) := by
      have hptnn : 0 ≤ processedTotal clips (b0 :: rest) :=
        processedTotal_nonneg clips (b0 :: rest) hnn2
      linarith
    have hev : (processAndMergeSegments (b0 :: rest) clips).progressEvents
        = 5 :: specCaptureProgress clips (totalDurationOf (b0 :: rest)) (b0 :: rest) 0 := by
      simp only [processAndMergeSegments, hfirst]
      rw [processNextBlock_events]
      rfl
    refine ⟨?_, ?_, ?_, ?_⟩
    · simp [processAndMergeSegments, hfirst]
    · simp only [processAndMergeSegments, hfirst]
      rw [processNextBlock_skipped]
      simp only [List.nil_append]
      exact List.mem_map.2 ⟨m, List.mem_filter.2 ⟨hm, by simp [hmiss]⟩, rfl⟩
    · simp only [processAndMergeSegments, hfirst]
      rw [processNextBlock_captured]
      rfl
    · intro p hp
      rw [hev] at hp
      rcases List.mem_cons.1 hp with rfl | hp2
      · norm_num
      · exact specCaptureProgress_lt_95 clips (totalDurationOf (b0 :: rest)) (b0 :: rest)
          0 hnn2 htot (by simpa using hlt) p hp2

/-- C10 witness: the amended behaviour at concrete inputs — a dangling second
block is skipped while the run completes with every sample below the 95 cap,
and a dangling first block rejects the run before the recorder starts. -/
theorem c10_missing_clip_witness :
    ((processAndMergeSegments (c10BlockA :: [c10BlockM]) [c10Clip]).outcome
        = ExportOutcome.completed ∧
      c10BlockM.id
        ∈ (processAndMergeSegments (c10BlockA :: [c10BlockM]) [c10Clip]).skippedBlockIds ∧
      (processAndMergeSegments (c10BlockA :: [c10BlockM]) [c10Clip]).capturedBlockIds
        = foundIds [c10Clip] (c10BlockA :: [c10BlockM]) ∧
      ∀ p ∈ (processAndMergeSegments (c10BlockA :: [c10BlockM]) [c10Clip]).progressEvents,
        p < 95) ∧
    processAndMergeSegments (c10FirstMissing :: [c10SecondValid]) [c10Clip]
      = ⟨ExportOutcome.firstClipNotFound, false, [], 0, [], []⟩ :=
  ⟨(c10_missing_clip_amended c10BlockA [c10BlockM] [c10Clip] c10BlockM).2 c10Clip
      rfl (by simp) rfl (by norm_num [c10BlockM])
      (by
        intro b hb
        simp only [List.mem_cons, List.not_mem_nil, or_false] at hb
        rcases hb with h | h <;> subst h <;> norm_num [c10BlockA, c10BlockM])
      (by
        intro b hb
        simp only [List.mem_cons, List.not_mem_nil, or_false] at hb
        rcases hb with h | h <;> subst h <;> norm_num [c10BlockA, c10BlockM]),
    (c10_missing_clip_amended c10FirstMissing [c10SecondValid] [c10Clip] c10FirstMissing).1 rfl⟩
